import Mathlib

/-!
Verification of the Recording Session Engine of the whisper-writer repository.

The engine lives in `src/writer/transcription_module.py` (class
`TranscriptionService`).  We give a shallow embedding of its pure core:

* text is a list of Unicode code points (`List Nat`), so that Python's
  `str.strip`, `str.lower`, `str.endswith('.')` and slicing `[:-1]` become
  executable Lean functions on lists;
* the capture loop of `record` is a function over a finite trace of
  per-iteration inputs (`Tick`): the two `cancel_flag()` samples one loop
  iteration performs (line 93 and line 100), the `keyboard.is_pressed`
  result, the `vad.is_speech` result, the frame samples delivered by the
  input stream, and whether the device/stream raised an exception during
  that iteration;
* a status queue is the list of `(kind, message)` pairs `put` on it;
* the audio artifact returned by `record` is `some samples` (the temp WAV
  file together with its PCM contents) or `none` (the function returned
  the empty string);
* the transcription backends are parameters returning `Except Unit text`,
  where `Except.error` models a raised exception.
-/

namespace WhisperWriter

/-- Code points of a string literal, used to state concrete text examples. -/
def codes (s : String) : List Nat := s.data.map Char.toNat

/-- Python whitespace test on the ASCII code points removed by `str.strip()`. -/
def pyIsSpace (c : Nat) : Bool :=
  decide (c = 32 ∨ c = 9 ∨ c = 10 ∨ c = 11 ∨ c = 12 ∨ c = 13)

/-- Lower-casing of one code point, as Python `str.lower` acts on ASCII. -/
def pyLowerChar (c : Nat) : Nat := if 65 ≤ c ∧ c ≤ 90 then c + 32 else c

/-- Python `str.lower` (ASCII fragment). -/
def pyLower (s : List Nat) : List Nat := s.map pyLowerChar

/-- Remove trailing whitespace, the right half of Python `str.strip()`. -/
def pyRStrip (s : List Nat) : List Nat := (s.reverse.dropWhile pyIsSpace).reverse

/-- Python `str.strip()`: drop leading then trailing whitespace. -/
def pyStrip (s : List Nat) : List Nat := pyRStrip (s.dropWhile pyIsSpace)

/-- Python `s.endswith('.')` (code point 46 is the period). -/
def pyEndsWithDot (s : List Nat) : Bool := s.getLast? = some 46

/-- Configuration attributes read by `TranscriptionService`
(`src/configurations/configuration.py`).  `recording_mode` is kept as the
mode-name string that the capture loop compares against
`RecordingMode.*.value`. -/
structure Configuration where
  use_api : Bool
  recording_mode : String
  sample_rate : Nat
  silence_duration : Nat
  remove_trailing_period : Bool
  add_trailing_space : Bool
  remove_capitalization : Bool
deriving DecidableEq

/-- `TranscriptionService.post_process_transcription`
(`transcription_module.py`, lines 143-152), translated statement by
statement: strip, conditional drop of a final period, conditional trailing
space, conditional lower-casing. -/
def post_process_transcription (cfg : Configuration) (transcription : List Nat) : List Nat :=
  let t1 := pyStrip transcription
  let t2 := if cfg.remove_trailing_period ∧ pyEndsWithDot t1 then t1.dropLast else t1
  let t3 := if cfg.add_trailing_space then t2 ++ [32] else t2
  if cfg.remove_capitalization then pyLower t3 else t3

/-- Spec-side step (1): "trim leading/trailing whitespace". -/
def specTrim (t : List Nat) : List Nat := pyStrip t

/-- Spec-side step (2): "if `remove_trailing_period` and text ends with `.`,
drop the final character". -/
def specDropPeriod (cfg : Configuration) (t : List Nat) : List Nat :=
  if cfg.remove_trailing_period ∧ pyEndsWithDot t then t.dropLast else t

/-- Spec-side step (3): "if `add_trailing_space`, append one space". -/
def specAddSpace (cfg : Configuration) (t : List Nat) : List Nat :=
  if cfg.add_trailing_space then t ++ [32] else t

/-- Spec-side step (4): "if `remove_capitalization`, lowercase the entire
string". -/
def specLowercase (cfg : Configuration) (t : List Nat) : List Nat :=
  if cfg.remove_capitalization then pyLower t else t

/-- Inputs one capture-loop iteration of `TranscriptionService.record`
consumes from its environment.  `cancelTop` is the `cancel_flag()` sample of
the `while not cancel_flag():` condition (line 93), `cancelMid` the sample of
`if not cancel_flag():` (line 100); `raise2` records whether the device or
stream raises an exception during this iteration. -/
structure Tick where
  cancelTop : Bool
  cancelMid : Bool
  pressed : Bool
  speech : Bool
  frame : List Int
  raise2 : Bool
deriving DecidableEq

/-- How the capture loop of `record` stopped: the `while` condition became
false (`cancelled`), a mode rule hit `break` (`broke`), the observed input
trace ended with the loop still running (`streamEnd`), or a device exception
was raised (`raised`). -/
inductive LoopExit
  | cancelled
  | broke
  | streamEnd
  | raised
deriving DecidableEq

/-- State of `record` when its loop stops: the accumulated `recording`
samples, the `num_silent_frames` counter, the way the loop stopped and the
number of frames taken from the buffer. -/
structure LoopResult where
  recording : List Int
  silent : Nat
  exitKind : LoopExit
  consumed : Nat
deriving DecidableEq

/-- `num_silence_frames = silence_duration // frame_duration` with
`frame_duration = 30` (`record`, lines 78 and 87). -/
def num_silence_frames (cfg : Configuration) : Nat := cfg.silence_duration / 30

/-- The mode-rule block of one loop iteration (`record`, lines 101-120),
keeping the source's two-block `if` / `if`-`elif` shape: an `if` for
`press_to_toggle` followed by an `if`/`elif` chain for `hold_to_record` and
`voice_activity_detection`.  Returns the updated recording, the updated
silence counter, and whether a `break` was executed. -/
def modeStep (cfg : Configuration) (t : Tick) (recording : List Int) (silent : Nat) :
    List Int × Nat × Bool :=
  let firstBlock :=
    if cfg.recording_mode = "press_to_toggle" then
      if 0 < recording.length ∧ t.pressed then (recording, silent, true)
      else (recording ++ t.frame, silent, false)
    else (recording, silent, false)
  match firstBlock with
  | (rec1, s1, true) => (rec1, s1, true)
  | (rec1, s1, false) =>
    if cfg.recording_mode = "hold_to_record" then
      if t.pressed then (rec1 ++ t.frame, s1, false) else (rec1, s1, true)
    else if cfg.recording_mode = "voice_activity_detection" then
      if t.speech then (rec1 ++ t.frame, 0, false)
      else
        let s2 := if 0 < rec1.length then s1 + 1 else s1
        if num_silence_frames cfg ≤ s2 then (rec1, s2, true) else (rec1, s2, false)
    else (rec1, s1, false)

/-- The capture loop of `TranscriptionService.record` (lines 93-120) over a
finite input trace.  Each iteration checks the flag at the top, pops one
frame, re-checks the flag, and runs the mode block. -/
def recordLoop (cfg : Configuration) : List Tick → List Int → Nat → LoopResult
  | [], recording, silent => ⟨recording, silent, LoopExit.streamEnd, 0⟩
  | t :: ts, recording, silent =>
    if t.cancelTop then ⟨recording, silent, LoopExit.cancelled, 0⟩
    else if t.raise2 then ⟨recording, silent, LoopExit.raised, 0⟩
    else if t.cancelMid then
      let r := recordLoop cfg ts recording silent
      ⟨r.recording, r.silent, r.exitKind, r.consumed + 1⟩
    else
      match modeStep cfg t recording silent with
      | (rec2, s2, true) => ⟨rec2, s2, LoopExit.broke, 1⟩
      | (rec2, s2, false) =>
        let r := recordLoop cfg ts rec2 s2
        ⟨r.recording, r.silent, r.exitKind, r.consumed + 1⟩

/-- Outcome of `TranscriptionService.record`: the status events it `put`, the
returned audio file (`some` PCM samples for the temp WAV path, `none` for the
empty string), the accumulated recording and the frames consumed. -/
structure RecordResult where
  events : List (String × String)
  file : Option (List Int)
  recording : List Int
  consumed : Nat
deriving DecidableEq

/-- `TranscriptionService.record` (lines 75-141): run the capture loop, then
either report cancellation (lines 122-124), write the WAV artifact and
return its path (lines 126-136), or — when the stream raised — run the
`except` handler (lines 138-141).  `cancelFinal` is the `cancel_flag()`
sample of line 122.  `none` means the observed trace ended with the loop
still running. -/
def record (cfg : Configuration) (ticks : List Tick) (cancelFinal : Bool) :
    Option RecordResult :=
  let r := recordLoop cfg ticks [] 0
  match r.exitKind with
  | LoopExit.streamEnd => none
  | LoopExit.raised => some ⟨[("error", "Error")], none, r.recording, r.consumed⟩
  | _ =>
    if cancelFinal then some ⟨[("cancel", "")], none, r.recording, r.consumed⟩
    else some ⟨[], some r.recording, r.recording, r.consumed⟩

/-- `TranscriptionService.transcribe` (lines 154-167).  The two backends are
parameters; `Except.error` models a raised exception, which this function
does not catch. -/
def transcribe (cfg : Configuration)
    (apiBackend localBackend : List Int → Except Unit (List Nat))
    (audio_file : Option (List Int)) :
    List (String × String) × Except Unit (List Nat) :=
  match audio_file with
  | none => ([], Except.ok [])
  | some samples =>
    let raw := if cfg.use_api then apiBackend samples else localBackend samples
    match raw with
    | Except.error e => ([("transcribing", "Transcribing...")], Except.error e)
    | Except.ok text =>
      ([("transcribing", "Transcribing...")], Except.ok (post_process_transcription cfg text))

/-- `TranscriptionService.record_and_transcribe` (lines 169-174).
`cancelPost` is the `cancel_flag()` sample of line 171.  The result pairs the
full ordered status-event sequence with the returned text, where
`Except.error` means an uncaught exception propagated to the caller. -/
def record_and_transcribe (cfg : Configuration) (ticks : List Tick)
    (cancelFinal cancelPost : Bool)
    (apiBackend localBackend : List Int → Except Unit (List Nat)) :
    Option (List (String × String) × Except Unit (List Nat)) :=
  match record cfg ticks cancelFinal with
  | none => none
  | some r =>
    if cancelPost then some (r.events, Except.ok [])
    else
      let p := transcribe cfg apiBackend localBackend r.file
      some (r.events ++ p.1, p.2)

/-- The successive values returned by the `cancel_flag()` closure during one
session, in program order: top and mid sample of every loop iteration, then
the line-122 sample, then the line-171 sample. -/
def cancelSamples : List Tick → Bool → Bool → List Bool
  | [], cancelFinal, cancelPost => [cancelFinal, cancelPost]
  | t :: ts, cancelFinal, cancelPost =>
    t.cancelTop :: t.cancelMid :: cancelSamples ts cancelFinal cancelPost

/-- The cancellation flag of the hosting `ResultThread` is only ever set,
never cleared, so the successive samples are monotone: once a sample reads
`true`, every later sample reads `true`. -/
def MonoCancel (ticks : List Tick) (cancelFinal cancelPost : Bool) : Prop :=
  ∀ j, j < (cancelSamples ticks cancelFinal cancelPost).length →
    ∀ i, i ≤ j →
      (cancelSamples ticks cancelFinal cancelPost).getD i false = true →
      (cancelSamples ticks cancelFinal cancelPost).getD j false = true

instance instDecidableMonoCancel (ticks : List Tick) (cancelFinal cancelPost : Bool) :
    Decidable (MonoCancel ticks cancelFinal cancelPost) := by
  unfold MonoCancel
  infer_instance

/-- The silence-counter state machine of the VAD branch over a speech/
non-speech sequence: the `num_silent_frames` value and whether the recording
is non-empty, after processing the sequence from the given state. -/
def vadCount : List Bool → Nat → Bool → Nat × Bool
  | [], s, hs => (s, hs)
  | b :: bs, s, hs =>
    if b then vadCount bs 0 true else vadCount bs (if hs then s + 1 else s) hs

/-- The counter value the VAD branch compares against the threshold when the
next frame is non-speech. -/
def vadNext (p : Nat × Bool) : Nat := if p.2 then p.1 + 1 else p.1

/-- The VAD `break` condition fires while processing frame `k` of the speech
sequence `bs`, starting from counter `s` and recording-non-empty flag `hs`:
frame `k` is non-speech and the incremented counter reaches the threshold. -/
def vadBrk (bs : List Bool) (thr s : Nat) (hs : Bool) (k : Nat) : Prop :=
  bs.getD k true = false ∧ thr ≤ vadNext (vadCount (bs.take k) s hs)

/-- Index of the last `true` in a boolean list, if any. -/
def lastTrueIdx : List Bool → Option Nat
  | [] => none
  | b :: bs =>
    match lastTrueIdx bs with
    | some i => some (i + 1)
    | none => if b then some 0 else none

/-- The spec-level VAD stop condition at frame `k`: thirty consecutive
non-speech frames (positions `k-29` through `k`) immediately follow a speech
frame at position `k-30`. -/
def SpecStopAt (bs : List Bool) (k : Nat) : Prop :=
  30 ≤ k ∧ k < bs.length ∧ bs.getD (k - 30) false = true ∧
    ∀ m, m ≤ k → k - 30 < m → bs.getD m false = false

/-- `k` is the first frame at which the spec-level VAD stop condition holds. -/
def FirstSpecStop (bs : List Bool) (k : Nat) : Prop :=
  SpecStopAt bs k ∧ ∀ j, j < k → ¬ SpecStopAt bs j

instance instDecidableSpecStopAt (bs : List Bool) (k : Nat) :
    Decidable (SpecStopAt bs k) := by
  unfold SpecStopAt
  infer_instance

instance instDecidableFirstSpecStop (bs : List Bool) (k : Nat) :
    Decidable (FirstSpecStop bs k) := by
  unfold FirstSpecStop
  infer_instance

/-- A loop iteration with no cancellation and no device failure. -/
def cleanTick (sp pr : Bool) (f : List Int) : Tick := ⟨false, false, pr, sp, f, false⟩

/-- A loop iteration that reads the cancellation flag as set at the top. -/
def cancelTick : Tick := ⟨true, false, false, false, [], false⟩

/-- A loop iteration that reads the cancellation flag as set at both sample
points (the flag, once set, stays set). -/
def cancelBothTick : Tick := ⟨true, true, false, false, [], false⟩

/-- The spec's end-to-end `press_to_toggle` scenario: ten frames with the
activation control released, then one with the control signalled again. -/
def toggleTicks (f : List Int) : List Tick :=
  List.replicate 10 (cleanTick false false f) ++ [cleanTick false true f]

/-- A concrete VAD trace: one speech frame followed by thirty non-speech
frames. -/
def vadTicksW : List Tick :=
  cleanTick true false [1] :: List.replicate 30 (cleanTick false false [1])

/-- A loop iteration during which the device/stream raises an exception. -/
def raiseTick : Tick := ⟨false, false, false, false, [], true⟩

/-- The spec's post-processing example configuration:
`remove_trailing_period` only. -/
def cfgPeriod : Configuration :=
  ⟨false, "voice_activity_detection", 16000, 900, true, false, false⟩

/-- A configuration with `remove_trailing_period` off, used for the amended
idempotence statement. -/
def cfgNoPeriod : Configuration :=
  ⟨false, "voice_activity_detection", 16000, 900, false, true, true⟩

/-- A `press_to_toggle` configuration with the spec's end-to-end
post-processing flags. -/
def cfgToggle : Configuration :=
  ⟨false, "press_to_toggle", 16000, 900, true, false, false⟩

/-- A `hold_to_record` configuration. -/
def cfgHold : Configuration :=
  ⟨true, "hold_to_record", 16000, 900, true, false, false⟩

/-- A `continuous` configuration. -/
def cfgCont : Configuration :=
  ⟨false, "continuous", 16000, 900, true, false, false⟩

/-- A `voice_activity_detection` configuration with
`silence_duration = 900`. -/
def cfgVad : Configuration :=
  ⟨false, "voice_activity_detection", 16000, 900, true, false, false⟩

end WhisperWriter

namespace WhisperWriter

/-- Claim C4: for every input text and every post-process configuration, the
post-processing function equals the order-fixed pipeline trim, then
conditional trailing-period removal, then conditional trailing space, then
conditional lower-casing — a pure function of `(text, config)`. -/
theorem claim_C4_post_process_pipeline (cfg : Configuration) (t : List Nat) :
    post_process_transcription cfg t =
      specLowercase cfg (specAddSpace cfg (specDropPeriod cfg (specTrim t))) := rfl

/-! Lemmas about the Python string fragment, used for the post-processing
idempotence analysis. -/

theorem dropWhile_self (p : α → Bool) (l : List α) :
    (l.dropWhile p).dropWhile p = l.dropWhile p := by
  induction l with
  | nil => rfl
  | cons a t ih =>
    by_cases h : p a
    · simp [List.dropWhile_cons_of_pos h, ih]
    · simp [List.dropWhile_cons_of_neg h]

theorem dropWhile_eq_self_of_prefix (p : α → Bool) {l l' : List α}
    (h : l.dropWhile p = l) (hp : l' <+: l) : l'.dropWhile p = l' := by
  cases l' with
  | nil => rfl
  | cons a t =>
    obtain ⟨r, hr⟩ := hp
    cases l with
    | nil => simp at hr
    | cons b u =>
      rw [List.cons_append] at hr
      injection hr with h1 h2
      subst h1
      by_cases pa : p a
      · rw [List.dropWhile_cons_of_pos pa] at h
        have := (List.dropWhile_sublist (l := u) p).length_le
        have hlen := congrArg List.length h
        simp at hlen
        omega
      · exact List.dropWhile_cons_of_neg pa

theorem pyRStrip_isPrefixOf (s : List Nat) : pyRStrip s <+: s := by
  unfold pyRStrip
  obtain ⟨r, hr⟩ := List.dropWhile_suffix (l := s.reverse) pyIsSpace
  exact ⟨r.reverse, by rw [← List.reverse_append, hr, List.reverse_reverse]⟩

theorem pyRStrip_append_space (s : List Nat) : pyRStrip (s ++ [32]) = pyRStrip s := by
  unfold pyRStrip
  simp [List.dropWhile_cons_of_pos (by decide : pyIsSpace 32 = true)]

theorem pyStrip_append_space (s : List Nat) : pyStrip (s ++ [32]) = pyStrip s := by
  unfold pyStrip
  rw [List.dropWhile_append]
  by_cases h : (s.dropWhile pyIsSpace).isEmpty
  · simp [h, List.isEmpty_iff.mp h]
    simp [pyRStrip, List.dropWhile_cons_of_pos (by decide : pyIsSpace 32 = true)]
  · simp [h, pyRStrip_append_space]

theorem pyStrip_lstrip (s : List Nat) : (pyStrip s).dropWhile pyIsSpace = pyStrip s := by
  unfold pyStrip
  exact dropWhile_eq_self_of_prefix pyIsSpace (dropWhile_self pyIsSpace s)
    (pyRStrip_isPrefixOf _)

theorem pyRStrip_pyStrip (s : List Nat) : pyRStrip (pyStrip s) = pyStrip s := by
  unfold pyStrip pyRStrip
  simp [List.reverse_reverse, dropWhile_self]

theorem pyStrip_idem (s : List Nat) : pyStrip (pyStrip s) = pyStrip s := by
  have h1 : pyStrip (pyStrip s) = pyRStrip ((pyStrip s).dropWhile pyIsSpace) := rfl
  rw [h1, pyStrip_lstrip, pyRStrip_pyStrip]

theorem pyIsSpace_pyLowerChar (c : Nat) : pyIsSpace (pyLowerChar c) = pyIsSpace c := by
  unfold pyIsSpace pyLowerChar
  split
  · next h => exact decide_eq_decide.mpr (by omega)
  · rfl

theorem pyLowerChar_idem (c : Nat) : pyLowerChar (pyLowerChar c) = pyLowerChar c := by
  unfold pyLowerChar
  split
  · next h => rw [if_neg (by omega)]
  · rfl

theorem pyLower_idem (s : List Nat) : pyLower (pyLower s) = pyLower s := by
  unfold pyLower
  rw [List.map_map]
  exact List.map_congr_left fun c _ => pyLowerChar_idem c

theorem dropWhile_pyLower (s : List Nat) :
    (pyLower s).dropWhile pyIsSpace = pyLower (s.dropWhile pyIsSpace) := by
  unfold pyLower
  rw [List.dropWhile_map]
  have h : (pyIsSpace ∘ pyLowerChar) = pyIsSpace := funext pyIsSpace_pyLowerChar
  rw [h]

theorem pyStrip_pyLower (s : List Nat) :
    pyStrip (pyLower s) = pyLower (pyStrip s) := by
  unfold pyStrip pyRStrip
  rw [dropWhile_pyLower]
  have h2 : (pyLower (s.dropWhile pyIsSpace)).reverse
      = pyLower ((s.dropWhile pyIsSpace).reverse) := by
    unfold pyLower
    exact (List.map_reverse _ _).symm
  rw [h2, dropWhile_pyLower]
  unfold pyLower
  rw [List.map_reverse]

theorem pyLower_append_space (s : List Nat) :
    pyLower (s ++ [32]) = pyLower s ++ [32] := by
  unfold pyLower
  simp [pyLowerChar]

/-- Claim C5 counterexample: with the spec's example configuration
(`remove_trailing_period` only), the input `".."` post-processes to `"."`,
and re-applying the same configuration yields `""`, so post-processing is not
idempotent for every input text and configuration. -/
theorem claim_C5_counterexample :
    post_process_transcription cfgPeriod
        (post_process_transcription cfgPeriod (codes "..")) ≠
      post_process_transcription cfgPeriod (codes "..") := by decide

/-- Claim C5, amended: post-processing is idempotent under repeated
application with identical config whenever `remove_trailing_period` is off;
with `remove_trailing_period` on, a second application can shorten the text
again (the period removed on the first pass can expose another trailing
period or trailing whitespace), though the spec's own example
`"Hello." → "Hello" → "Hello"` does hold. -/
theorem claim_C5_idempotent_amended :
    (∀ cfg t, cfg.remove_trailing_period = false →
      post_process_transcription cfg (post_process_transcription cfg t) =
        post_process_transcription cfg t) ∧
    post_process_transcription cfgPeriod (codes "Hello.") = codes "Hello" ∧
    post_process_transcription cfgPeriod (codes "Hello") = codes "Hello" := by
  refine ⟨?_, by decide, by decide⟩
  intro cfg t h
  cases hA : cfg.add_trailing_space <;> cases hC : cfg.remove_capitalization <;>
    simp [post_process_transcription, h, hA, hC, pyStrip_idem, pyStrip_append_space,
      pyStrip_pyLower, pyLower_idem, pyLower_append_space]

/-- Witness for the amended claim C5: the idempotence branch applied to the
concrete configuration `cfgNoPeriod` and the concrete input `" A b. "`. -/
theorem claim_C5_idempotent_amended_witness :
    cfgNoPeriod.remove_trailing_period = false ∧
    post_process_transcription cfgNoPeriod
        (post_process_transcription cfgNoPeriod (codes " A b. ")) =
      post_process_transcription cfgNoPeriod (codes " A b. ") :=
  ⟨rfl, claim_C5_idempotent_amended.1 cfgNoPeriod (codes " A b. ") rfl⟩

/-- Claim C10: `transcribe` called with the empty (falsy) audio-file path —
the value `record` returns on cancellation or capture error — returns the
empty string immediately, emitting no `transcribing` StatusEvent and
invoking neither backend (the result is a constant, whatever the backends
are). -/
theorem claim_C10_transcribe_empty_path (cfg : Configuration)
    (apiBackend localBackend : List Int → Except Unit (List Nat)) :
    transcribe cfg apiBackend localBackend none = ([], Except.ok []) := rfl

/-- Claim C1 (code bug): `record_and_transcribe` has no handler around the
backend dispatch, so a backend exception propagates uncaught.  On a concrete
`hold_to_record` session whose selected API backend raises, the result is the
propagated exception (`Except.error`), no `error` StatusEvent is emitted and
the returned value is not the empty string the spec requires. -/
theorem claim_C1_backend_exception_uncaught :
    record_and_transcribe cfgHold [cleanTick false true [1], cleanTick false false [1]]
        false false (fun _ => Except.error ()) (fun _ => Except.ok []) =
      some ([("transcribing", "Transcribing...")], Except.error ()) := rfl

/-! Basic facts about the capture loop. -/

theorem recordLoop_cons (cfg : Configuration) (t : Tick) (ts : List Tick)
    (rec : List Int) (s : Nat) :
    recordLoop cfg (t :: ts) rec s =
      if t.cancelTop then ⟨rec, s, LoopExit.cancelled, 0⟩
      else if t.raise2 then ⟨rec, s, LoopExit.raised, 0⟩
      else if t.cancelMid then
        ⟨(recordLoop cfg ts rec s).recording, (recordLoop cfg ts rec s).silent,
          (recordLoop cfg ts rec s).exitKind, (recordLoop cfg ts rec s).consumed + 1⟩
      else
        match modeStep cfg t rec s with
        | (rec2, s2, true) => ⟨rec2, s2, LoopExit.broke, 1⟩
        | (rec2, s2, false) =>
          ⟨(recordLoop cfg ts rec2 s2).recording, (recordLoop cfg ts rec2 s2).silent,
            (recordLoop cfg ts rec2 s2).exitKind, (recordLoop cfg ts rec2 s2).consumed + 1⟩ :=
  rfl

theorem recordLoop_consumed_le (cfg : Configuration) :
    ∀ (ticks : List Tick) (rec : List Int) (s : Nat),
      (recordLoop cfg ticks rec s).consumed ≤ ticks.length := by
  intro ticks
  induction ticks with
  | nil => intro rec s; simp [recordLoop]
  | cons t ts ih =>
    intro rec s
    rw [recordLoop_cons]
    by_cases h1 : t.cancelTop = true
    · simp [h1]
    · by_cases h2 : t.raise2 = true
      · simp [h1, h2]
      · by_cases h3 : t.cancelMid = true
        · have := ih rec s
          simp [h1, h2, h3]
          omega
        · rcases hm : modeStep cfg t rec s with ⟨rec2, s2, brk⟩
          cases brk
          · have := ih rec2 s2
            simp [h1, h2, h3, hm]
            omega
          · simp [h1, h2, h3, hm]

theorem recordLoop_consumed_le_of_cancelTop (cfg : Configuration) :
    ∀ (ticks : List Tick) (rec : List Int) (s : Nat) (i : Nat) (h : i < ticks.length),
      (ticks.get ⟨i, h⟩).cancelTop = true →
      (recordLoop cfg ticks rec s).consumed ≤ i := by
  intro ticks
  induction ticks with
  | nil => intro rec s i h; exact absurd h (by simp)
  | cons t ts ih =>
    intro rec s i h hc
    rw [recordLoop_cons]
    cases i with
    | zero =>
      have hc2 : t.cancelTop = true := hc
      simp [hc2]
    | succ i2 =>
      have hlt : i2 < ts.length := by simpa using h
      have hc2 : (ts.get ⟨i2, hlt⟩).cancelTop = true := hc
      by_cases h1 : t.cancelTop = true
      · simp [h1]
      · by_cases h2 : t.raise2 = true
        · simp [h1, h2]
        · by_cases h3 : t.cancelMid = true
          · have := ih rec s i2 hlt hc2
            simp [h1, h2, h3]
            omega
          · rcases hm : modeStep cfg t rec s with ⟨rec2, s2, brk⟩
            cases brk
            · have := ih rec2 s2 i2 hlt hc2
              simp [h1, h2, h3, hm]
              omega
            · simp [h1, h2, h3, hm]

theorem recordLoop_ne_raised (cfg : Configuration) :
    ∀ (ticks : List Tick) (rec : List Int) (s : Nat),
      (∀ t ∈ ticks, t.raise2 = false) →
      (recordLoop cfg ticks rec s).exitKind ≠ LoopExit.raised := by
  intro ticks
  induction ticks with
  | nil => intro rec s _; simp [recordLoop]
  | cons t ts ih =>
    intro rec s hnr
    have hhead : t.raise2 = false := hnr t (by simp)
    have htail : ∀ u ∈ ts, u.raise2 = false := fun u hu => hnr u (by simp [hu])
    rw [recordLoop_cons]
    by_cases h1 : t.cancelTop = true
    · simp [h1]
    · by_cases h3 : t.cancelMid = true
      · have := ih rec s htail
        simp [h1, hhead, h3]
        exact this
      · rcases hm : modeStep cfg t rec s with ⟨rec2, s2, brk⟩
        cases brk
        · have := ih rec2 s2 htail
          simp [h1, hhead, h3, hm]
          exact this
        · simp [h1, hhead, h3, hm]

theorem cancelSamples_length (ticks : List Tick) (cf cp : Bool) :
    (cancelSamples ticks cf cp).length = 2 * ticks.length + 2 := by
  induction ticks with
  | nil => rfl
  | cons t ts ih =>
    simp only [cancelSamples, List.length_cons, ih]
    omega

theorem cancelSamples_getD_top :
    ∀ (ticks : List Tick) (cf cp : Bool) (i : Nat) (h : i < ticks.length),
      (cancelSamples ticks cf cp).getD (2 * i) false = (ticks.get ⟨i, h⟩).cancelTop := by
  intro ticks
  induction ticks with
  | nil => intro cf cp i h; exact absurd h (by simp)
  | cons t ts ih =>
    intro cf cp i h
    cases i with
    | zero => rfl
    | succ i2 =>
      have he : 2 * (i2 + 1) = 2 * i2 + 1 + 1 := by omega
      rw [he]
      simp only [cancelSamples, List.getD_cons_succ, List.get_cons_succ]
      exact ih cf cp i2 (by simpa using h)

theorem cancelSamples_getD_mid :
    ∀ (ticks : List Tick) (cf cp : Bool) (i : Nat) (h : i < ticks.length),
      (cancelSamples ticks cf cp).getD (2 * i + 1) false = (ticks.get ⟨i, h⟩).cancelMid := by
  intro ticks
  induction ticks with
  | nil => intro cf cp i h; exact absurd h (by simp)
  | cons t ts ih =>
    intro cf cp i h
    cases i with
    | zero => rfl
    | succ i2 =>
      have he : 2 * (i2 + 1) + 1 = (2 * i2 + 1) + 1 + 1 := by omega
      rw [he]
      simp only [cancelSamples, List.getD_cons_succ, List.get_cons_succ]
      exact ih cf cp i2 (by simpa using h)

theorem cancelSamples_getD_final (ticks : List Tick) (cf cp : Bool) :
    (cancelSamples ticks cf cp).getD (2 * ticks.length) false = cf := by
  induction ticks with
  | nil => rfl
  | cons t ts ih =>
    have he : 2 * (t :: ts).length = 2 * ts.length + 1 + 1 := by
      simp [List.length_cons]
      omega
    rw [he]
    simpa only [cancelSamples, List.getD_cons_succ] using ih

theorem cancelSamples_getD_post (ticks : List Tick) (cf cp : Bool) :
    (cancelSamples ticks cf cp).getD (2 * ticks.length + 1) false = cp := by
  induction ticks with
  | nil => rfl
  | cons t ts ih =>
    have he : 2 * (t :: ts).length + 1 = (2 * ts.length + 1) + 1 + 1 := by
      simp [List.length_cons]
      omega
    rw [he]
    simpa only [cancelSamples, List.getD_cons_succ] using ih

/-- Claim C2: if the cancellation flag becomes set at any point of the
capture phase (so that, the flag being monotone, the line-122 sample reads
`true`), the capture loop exits within one frame iteration of the flag being
observed — it stops at the top check of the iteration whose top sample is
set, and at most one extra frame is consumed when only the mid-iteration
sample is set — no transcription call is dispatched (the outcome is the same
for every pair of backends and carries no `transcribing` event), the final
result text is the empty string, and a `cancel` StatusEvent is queued. -/
theorem claim_C2_cancellation_during_capture (cfg : Configuration) (ticks : List Tick)
    (cancelPost : Bool) (apiBackend localBackend : List Int → Except Unit (List Nat))
    (hmono : MonoCancel ticks true cancelPost)
    (hnr : ∀ t ∈ ticks, t.raise2 = false)
    (hend : (recordLoop cfg ticks [] 0).exitKind ≠ LoopExit.streamEnd) :
    (∀ i (h : i < ticks.length), (ticks.get ⟨i, h⟩).cancelTop = true →
      (recordLoop cfg ticks [] 0).consumed ≤ i) ∧
    (∀ i (h : i < ticks.length), (ticks.get ⟨i, h⟩).cancelMid = true →
      (recordLoop cfg ticks [] 0).consumed ≤ i + 1) ∧
    record cfg ticks true =
      some ⟨[("cancel", "")], none, (recordLoop cfg ticks [] 0).recording,
        (recordLoop cfg ticks [] 0).consumed⟩ ∧
    record_and_transcribe cfg ticks true cancelPost apiBackend localBackend =
      some ([("cancel", "")], Except.ok []) := by
  have hraised := recordLoop_ne_raised cfg ticks [] 0 hnr
  have hlen := cancelSamples_length ticks true cancelPost
  have hcp : cancelPost = true := by
    have h1 := cancelSamples_getD_final ticks true cancelPost
    have h2 := cancelSamples_getD_post ticks true cancelPost
    have := hmono (2 * ticks.length + 1) (by omega) (2 * ticks.length) (by omega)
      (by rw [h1])
    rwa [h2] at this
  have hrec : record cfg ticks true =
      some ⟨[("cancel", "")], none, (recordLoop cfg ticks [] 0).recording,
        (recordLoop cfg ticks [] 0).consumed⟩ := by
    cases hek : (recordLoop cfg ticks [] 0).exitKind with
    | streamEnd => exact absurd hek hend
    | raised => exact absurd hek hraised
    | cancelled => simp [record, hek]
    | broke => simp [record, hek]
  refine ⟨fun i h hc => recordLoop_consumed_le_of_cancelTop cfg ticks [] 0 i h hc,
    ?_, hrec, ?_⟩
  · intro i h hm2
    by_cases hsucc : i + 1 < ticks.length
    · have htop : (ticks.get ⟨i + 1, hsucc⟩).cancelTop = true := by
        have e1 := cancelSamples_getD_mid ticks true cancelPost i h
        have e2 := cancelSamples_getD_top ticks true cancelPost (i + 1) hsucc
        have := hmono (2 * (i + 1)) (by omega) (2 * i + 1) (by omega)
          (by rw [e1]; exact hm2)
        rwa [e2] at this
      have := recordLoop_consumed_le_of_cancelTop cfg ticks [] 0 (i + 1) hsucc htop
      omega
    · have := recordLoop_consumed_le cfg ticks [] 0
      omega
  · simp [record_and_transcribe, hrec, hcp]

/-- Witness for claim C2: a session that records one silent frame and is
then cancelled; the loop exits at the top check of the second iteration,
the work product is the `cancel` event and the empty string. -/
theorem claim_C2_cancellation_during_capture_witness :
    MonoCancel [cleanTick false false [1], cancelBothTick] true true ∧
    (∀ t ∈ [cleanTick false false [1], cancelBothTick], t.raise2 = false) ∧
    (recordLoop cfgVad [cleanTick false false [1], cancelBothTick] [] 0).exitKind ≠
      LoopExit.streamEnd ∧
    record cfgVad [cleanTick false false [1], cancelBothTick] true =
      some ⟨[("cancel", "")], none, [], 1⟩ :=
  ⟨by decide, by decide, by decide, by
    have h := claim_C2_cancellation_during_capture cfgVad
      [cleanTick false false [1], cancelBothTick] true
      (fun _ => Except.ok []) (fun _ => Except.ok []) (by decide) (by decide) (by decide)
    exact h.2.2.1⟩

/-- Claim C9: a device/stream error raised during capture is caught inside
`record`: the session emits an `error` StatusEvent, returns no artifact, and
`record_and_transcribe` then finishes normally with the empty string — the
error never propagates out of the record operation. -/
theorem claim_C9_capture_error_contained (cfg : Configuration) (ticks : List Tick)
    (cancelFinal : Bool) (apiBackend localBackend : List Int → Except Unit (List Nat))
    (hr : (recordLoop cfg ticks [] 0).exitKind = LoopExit.raised) :
    record cfg ticks cancelFinal =
      some ⟨[("error", "Error")], none, (recordLoop cfg ticks [] 0).recording,
        (recordLoop cfg ticks [] 0).consumed⟩ ∧
    record_and_transcribe cfg ticks cancelFinal false apiBackend localBackend =
      some ([("error", "Error")], Except.ok []) := by
  have h1 : record cfg ticks cancelFinal =
      some ⟨[("error", "Error")], none, (recordLoop cfg ticks [] 0).recording,
        (recordLoop cfg ticks [] 0).consumed⟩ := by
    simp [record, hr]
  exact ⟨h1, by simp [record_and_transcribe, h1, transcribe]⟩

/-- Witness for claim C9: the stream raises during the first iteration; the
session reports `error` and yields no artifact. -/
theorem claim_C9_capture_error_contained_witness :
    (recordLoop cfgHold [raiseTick] [] 0).exitKind = LoopExit.raised ∧
    record cfgHold [raiseTick] false = some ⟨[("error", "Error")], none, [], 0⟩ :=
  ⟨by decide, by
    have h := claim_C9_capture_error_contained cfgHold [raiseTick] false
      (fun _ => Except.ok []) (fun _ => Except.ok []) (by decide)
    exact h.1⟩

/-- Claim C6 counterexample: a `hold_to_record` session whose activation key
is released on the very first frame finishes with an empty accumulated
sample list, yet `record` still writes and returns a WAV artifact (with
empty contents) — contradicting "a session whose accumulated sample list is
empty yields no artifact". -/
theorem claim_C6_counterexample :
    (record cfgHold [cleanTick false false [5]] false).map RecordResult.recording =
        some [] ∧
      (record cfgHold [cleanTick false false [5]] false).map RecordResult.file =
        some (some []) := by decide

/-- Claim C6, amended: an artifact is produced exactly on non-cancelled,
non-errored termination of the capture loop — a cancelled session and an
errored session yield no artifact, but a finished session always yields one,
even when the accumulated sample list is empty (an empty WAV is written). -/
theorem claim_C6_artifact_amended (cfg : Configuration) (ticks : List Tick)
    (cancelFinal : Bool)
    (hend : (recordLoop cfg ticks [] 0).exitKind ≠ LoopExit.streamEnd) :
    (record cfg ticks cancelFinal).map RecordResult.file =
      some (if (recordLoop cfg ticks [] 0).exitKind = LoopExit.raised ∨ cancelFinal = true
        then none else some (recordLoop cfg ticks [] 0).recording) := by
  cases hek : (recordLoop cfg ticks [] 0).exitKind with
  | streamEnd => exact absurd hek hend
  | raised => simp [record, hek]
  | cancelled => cases cancelFinal <;> simp [record, hek]
  | broke => cases cancelFinal <;> simp [record, hek]

/-- Witness for the amended claim C6: the immediately-finished
`hold_to_record` session produces the empty-contents artifact. -/
theorem claim_C6_artifact_amended_witness :
    (recordLoop cfgHold [cleanTick false false [5]] [] 0).exitKind ≠
      LoopExit.streamEnd ∧
    (record cfgHold [cleanTick false false [5]] false).map RecordResult.file =
      some (some []) :=
  ⟨by decide, by
    have h := claim_C6_artifact_amended cfgHold [cleanTick false false [5]] false
      (by decide)
    exact h⟩

/-- Claim C7 counterexample: in `continuous` mode a frame arrives and is not
appended — the capture loop has no handling branch for this mode, so the
recording stays empty instead of receiving the incoming frame. -/
theorem claim_C7_counterexample :
    (recordLoop cfgCont [cleanTick false false [7]] [] 0).recording = [] ∧
    (cleanTick false false [7]).frame ≠ [] := by decide

/-- Claim C7, amended: in `continuous` mode the mode block neither appends
nor breaks (no handling branch exists, so every incoming frame is dropped),
and the capture loop never stops of its own accord — it ends only through
external cancellation, the trace ending, or a device error. -/
theorem claim_C7_continuous_amended (cfg : Configuration)
    (h : cfg.recording_mode = "continuous") :
    (∀ (t : Tick) (rec : List Int) (s : Nat), modeStep cfg t rec s = (rec, s, false)) ∧
    (∀ (ticks : List Tick) (rec : List Int) (s : Nat),
      (recordLoop cfg ticks rec s).exitKind ≠ LoopExit.broke) := by
  have hstep : ∀ (t : Tick) (rec : List Int) (s : Nat),
      modeStep cfg t rec s = (rec, s, false) := by
    intro t rec s
    simp [modeStep, h]
  refine ⟨hstep, ?_⟩
  intro ticks
  induction ticks with
  | nil => intro rec s; simp [recordLoop]
  | cons t ts ih =>
    intro rec s
    rw [recordLoop_cons]
    by_cases h1 : t.cancelTop = true
    · simp [h1]
    · by_cases h2 : t.raise2 = true
      · simp [h1, h2]
      · by_cases h3 : t.cancelMid = true
        · simp only [h1, h2, h3]
          simpa using ih rec s
        · rw [hstep t rec s]
          simp only [h1, h2, h3]
          simpa using ih rec s

/-- Witness for the amended claim C7: the concrete one-frame continuous
session drops its frame and does not break. -/
theorem claim_C7_continuous_amended_witness :
    cfgCont.recording_mode = "continuous" ∧
    modeStep cfgCont (cleanTick false false [7]) [] 0 = ([], 0, false) ∧
    (recordLoop cfgCont [cleanTick false false [7]] [] 0).exitKind ≠ LoopExit.broke :=
  ⟨rfl, (claim_C7_continuous_amended cfgCont rfl).1 (cleanTick false false [7]) [] 0,
    (claim_C7_continuous_amended cfgCont rfl).2 [cleanTick false false [7]] [] 0⟩

theorem sum_replicate_nat (n m : Nat) : (List.replicate n m).sum = n * m := by
  induction n with
  | zero => simp
  | succ k ih =>
    rw [List.replicate_succ, List.sum_cons, ih, Nat.succ_mul]
    omega

theorem modeStep_toggle (cfg : Configuration) (h : cfg.recording_mode = "press_to_toggle")
    (t : Tick) (rec : List Int) (s : Nat) :
    modeStep cfg t rec s =
      if 0 < rec.length ∧ t.pressed = true then (rec, s, true)
      else (rec ++ t.frame, s, false) := by
  by_cases hc : 0 < rec.length ∧ t.pressed = true <;> simp [modeStep, h, hc]

theorem recordLoop_clean_cons (cfg : Configuration) (sp pr : Bool) (f : List Int)
    (ts : List Tick) (rec : List Int) (s : Nat) :
    recordLoop cfg (cleanTick sp pr f :: ts) rec s =
      match modeStep cfg (cleanTick sp pr f) rec s with
      | (rec2, s2, true) => ⟨rec2, s2, LoopExit.broke, 1⟩
      | (rec2, s2, false) =>
        ⟨(recordLoop cfg ts rec2 s2).recording, (recordLoop cfg ts rec2 s2).silent,
          (recordLoop cfg ts rec2 s2).exitKind, (recordLoop cfg ts rec2 s2).consumed + 1⟩ :=
  rfl

theorem recordLoop_cons_of_break (cfg : Configuration) (t : Tick) (ts : List Tick)
    (rec : List Int) (s : Nat) (rec2 : List Int) (s2 : Nat)
    (hclean : t.cancelTop = false ∧ t.cancelMid = false ∧ t.raise2 = false)
    (hm : modeStep cfg t rec s = (rec2, s2, true)) :
    recordLoop cfg (t :: ts) rec s = ⟨rec2, s2, LoopExit.broke, 1⟩ := by
  obtain ⟨h1, h2, h3⟩ := hclean
  rw [recordLoop_cons, h1, h3, h2, hm]
  rfl

theorem recordLoop_cons_of_step (cfg : Configuration) (t : Tick) (ts : List Tick)
    (rec : List Int) (s : Nat) (rec2 : List Int) (s2 : Nat)
    (hclean : t.cancelTop = false ∧ t.cancelMid = false ∧ t.raise2 = false)
    (hm : modeStep cfg t rec s = (rec2, s2, false)) :
    recordLoop cfg (t :: ts) rec s =
      ⟨(recordLoop cfg ts rec2 s2).recording, (recordLoop cfg ts rec2 s2).silent,
        (recordLoop cfg ts rec2 s2).exitKind, (recordLoop cfg ts rec2 s2).consumed + 1⟩ := by
  obtain ⟨h1, h2, h3⟩ := hclean
  rw [recordLoop_cons, h1, h3, h2, hm]
  rfl

theorem recordLoop_toggle (cfg : Configuration)
    (h : cfg.recording_mode = "press_to_toggle") (f : List Int) :
    ∀ (n : Nat) (rec : List Int) (s : Nat), rec ≠ [] →
      recordLoop cfg
          (List.replicate n (cleanTick false false f) ++ [cleanTick false true f]) rec s =
        ⟨rec ++ (List.replicate n f).flatten, s, LoopExit.broke, n + 1⟩ := by
  intro n
  induction n with
  | zero =>
    intro rec s hrec
    have hpos : 0 < rec.length := List.length_pos.mpr hrec
    have hm2 : modeStep cfg (cleanTick false true f) rec s = (rec, s, true) := by
      rw [modeStep_toggle cfg h, if_pos (⟨hpos, rfl⟩ :
        0 < rec.length ∧ (cleanTick false true f).pressed = true)]
    rw [List.replicate_zero, List.nil_append,
      recordLoop_cons_of_break cfg _ _ rec s rec s ⟨rfl, rfl, rfl⟩ hm2]
    simp
  | succ k ih =>
    intro rec s hrec
    have hne : rec ++ f ≠ [] := fun hh => hrec (List.append_eq_nil.mp hh).1
    have hm2 : modeStep cfg (cleanTick false false f) rec s = (rec ++ f, s, false) := by
      have hcond : ¬(0 < rec.length ∧ (cleanTick false false f).pressed = true) := by
        intro hcon
        simp [cleanTick] at hcon
      rw [modeStep_toggle cfg h, if_neg hcond]
      rfl
    rw [List.replicate_succ, List.cons_append,
      recordLoop_cons_of_step cfg _ _ rec s (rec ++ f) s ⟨rfl, rfl, rfl⟩ hm2,
      ih (rec ++ f) s hne]
    simp [List.replicate_succ, List.append_assoc]

theorem recordLoop_toggle10 (cfg : Configuration)
    (h : cfg.recording_mode = "press_to_toggle") (f : List Int) (hf : f ≠ []) :
    recordLoop cfg (toggleTicks f) [] 0 =
      ⟨(List.replicate 10 f).flatten, 0, LoopExit.broke, 11⟩ := by
  have hm2 : modeStep cfg (cleanTick false false f) [] 0 = (f, 0, false) := by
    have hcond : ¬(0 < ([] : List Int).length ∧
        (cleanTick false false f).pressed = true) := by
      intro hcon
      simp at hcon
    rw [modeStep_toggle cfg h, if_neg hcond]
    rfl
  unfold toggleTicks
  rw [show (10 : Nat) = 9 + 1 from rfl, List.replicate_succ, List.cons_append,
    recordLoop_cons_of_step cfg _ _ [] 0 f 0 ⟨rfl, rfl, rfl⟩ hm2,
    recordLoop_toggle cfg h f 9 f 0 hf]
  simp [List.replicate_succ]

/-- Claim C8: in `press_to_toggle` mode each frame is handled by the rule
"stop without appending when the activation control is signalled and at
least one frame is recorded, otherwise append the frame"; for the synthetic
sequence of ten frames followed by a toggle the loop breaks having recorded
exactly ten frames' samples (10 × per-frame sample count), and the spec's
end-to-end scenario with a stub backend returning `"test transcription."`
post-processes to `"test transcription"`. -/
theorem claim_C8_press_to_toggle (cfg : Configuration)
    (h : cfg.recording_mode = "press_to_toggle") (f : List Int) (hf : f ≠ []) :
    (∀ (t : Tick) (rec : List Int) (s : Nat), modeStep cfg t rec s =
      if 0 < rec.length ∧ t.pressed = true then (rec, s, true)
      else (rec ++ t.frame, s, false)) ∧
    recordLoop cfg (toggleTicks f) [] 0 =
      ⟨(List.replicate 10 f).flatten, 0, LoopExit.broke, 11⟩ ∧
    ((List.replicate 10 f).flatten).length = 10 * f.length ∧
    record_and_transcribe cfgToggle (toggleTicks f) false false
        (fun _ => Except.ok []) (fun _ => Except.ok (codes "test transcription.")) =
      some ([("transcribing", "Transcribing...")], Except.ok (codes "test transcription")) := by
  refine ⟨modeStep_toggle cfg h, recordLoop_toggle10 cfg h f hf, ?_, ?_⟩
  · rw [List.length_flatten, List.map_replicate, sum_replicate_nat]
  · have hrec : record cfgToggle (toggleTicks f) false =
        some ⟨[], some ((List.replicate 10 f).flatten), (List.replicate 10 f).flatten, 11⟩ := by
      simp [record, recordLoop_toggle10 cfgToggle rfl f hf]
    have hpp : post_process_transcription cfgToggle (codes "test transcription.") =
        codes "test transcription" := by decide
    simp [record_and_transcribe, hrec, transcribe, hpp,
      show cfgToggle.use_api = false from rfl]

/-- Witness for claim C8, at the one-sample frame `[1]`. -/
theorem claim_C8_press_to_toggle_witness :
    cfgToggle.recording_mode = "press_to_toggle" ∧ ([1] : List Int) ≠ [] ∧
    recordLoop cfgToggle (toggleTicks [1]) [] 0 =
      ⟨(List.replicate 10 ([1] : List Int)).flatten, 0, LoopExit.broke, 11⟩ :=
  ⟨rfl, by decide, (claim_C8_press_to_toggle cfgToggle rfl [1] (by decide)).2.1⟩

/-! The voice-activity-detection break condition, step by step over the
speech sequence. -/

theorem vadBrk_nil (thr s : Nat) (hs : Bool) (k : Nat) : ¬ vadBrk [] thr s hs k := by
  intro h
  have h1 := h.1
  simp [List.getD] at h1

theorem vadBrk_cons_zero (b : Bool) (bs : List Bool) (thr s : Nat) (hs : Bool) :
    vadBrk (b :: bs) thr s hs 0 ↔ (b = false ∧ thr ≤ vadNext (s, hs)) := by
  unfold vadBrk
  simp [vadCount]

theorem vadBrk_cons_succ_true (bs : List Bool) (thr s : Nat) (hs : Bool) (k : Nat) :
    vadBrk (true :: bs) thr s hs (k + 1) ↔ vadBrk bs thr 0 true k := by
  unfold vadBrk
  simp [List.take_succ_cons, vadCount]

theorem vadBrk_cons_succ_false (bs : List Bool) (thr s : Nat) (hs : Bool) (k : Nat) :
    vadBrk (false :: bs) thr s hs (k + 1) ↔
      vadBrk bs thr (if hs = true then s + 1 else s) hs k := by
  unfold vadBrk
  simp [List.take_succ_cons, vadCount]

theorem first_shift (P Q : Nat → Prop) (h0 : ¬ P 0)
    (hsucc : ∀ k, P (k + 1) ↔ Q k) (n : Nat) :
    (∃ k, n = k + 1 ∧ P k ∧ ∀ j, j < k → ¬ P j) ↔
      (∃ k, n = k + 2 ∧ Q k ∧ ∀ j, j < k → ¬ Q j) := by
  constructor
  · rintro ⟨k, hn, hp, hmin⟩
    cases k with
    | zero => exact absurd hp h0
    | succ k2 =>
      refine ⟨k2, by omega, (hsucc k2).mp hp, fun j hj hq => ?_⟩
      exact hmin (j + 1) (by omega) ((hsucc j).mpr hq)
  · rintro ⟨k, hn, hq, hmin⟩
    refine ⟨k + 1, by omega, (hsucc k).mpr hq, fun j hj => ?_⟩
    cases j with
    | zero => exact h0
    | succ j2 => exact fun hp => hmin j2 (by omega) ((hsucc j2).mp hp)

theorem all_shift (P Q : Nat → Prop) (h0 : ¬ P 0)
    (hsucc : ∀ k, P (k + 1) ↔ Q k) :
    (∀ k, ¬ P k) ↔ (∀ k, ¬ Q k) := by
  constructor
  · intro h k hq
    exact h (k + 1) ((hsucc k).mpr hq)
  · intro h k
    cases k with
    | zero => exact h0
    | succ k2 => exact fun hp => h k2 ((hsucc k2).mp hp)

theorem first_zero (P : Nat → Prop) (h0 : P 0) (n : Nat) :
    (∃ k, n = k + 1 ∧ P k ∧ ∀ j, j < k → ¬ P j) ↔ n = 1 := by
  constructor
  · rintro ⟨k, hn, hp, hmin⟩
    cases k with
    | zero => omega
    | succ k2 => exact absurd h0 (hmin 0 (by omega))
  · intro hn
    exact ⟨0, by omega, h0, fun j hj => absurd hj (by omega)⟩

theorem loop_shift (Rb : Prop) (Rc : Nat) (P Q : Nat → Prop) (h0 : ¬ P 0)
    (hsucc : ∀ k, P (k + 1) ↔ Q k)
    (hIH : ∀ n, (Rb ∧ Rc = n) ↔ (∃ k, n = k + 1 ∧ Q k ∧ ∀ j, j < k → ¬ Q j)) :
    ∀ n, (Rb ∧ Rc + 1 = n) ↔ (∃ k, n = k + 1 ∧ P k ∧ ∀ j, j < k → ¬ P j) := by
  intro n
  rw [first_shift P Q h0 hsucc n]
  constructor
  · rintro ⟨hb, hn⟩
    obtain ⟨k, hk, hq, hmin⟩ := (hIH Rc).mp ⟨hb, rfl⟩
    exact ⟨k, by omega, hq, hmin⟩
  · rintro ⟨k, hn, hq, hmin⟩
    have h2 := (hIH (k + 1)).mpr ⟨k, rfl, hq, hmin⟩
    exact ⟨h2.1, by omega⟩

theorem modeStep_vad_speech (cfg : Configuration)
    (hm : cfg.recording_mode = "voice_activity_detection") (t : Tick)
    (hsp : t.speech = true) (rec : List Int) (s : Nat) :
    modeStep cfg t rec s = (rec ++ t.frame, 0, false) := by
  simp [modeStep, hm, hsp]

theorem modeStep_vad_silent (cfg : Configuration)
    (hm : cfg.recording_mode = "voice_activity_detection") (t : Tick)
    (hsp : t.speech = false) (rec : List Int) (s : Nat) :
    modeStep cfg t rec s =
      (rec, if 0 < rec.length then s + 1 else s,
        decide (num_silence_frames cfg ≤ (if 0 < rec.length then s + 1 else s))) := by
  by_cases hrec : 0 < rec.length
  · by_cases hb : num_silence_frames cfg ≤ s + 1 <;> simp [modeStep, hm, hsp, hrec, hb]
  · by_cases hb : num_silence_frames cfg ≤ s <;> simp [modeStep, hm, hsp, hrec, hb]

/-- The capture loop in VAD mode, characterised: on a clean trace with
non-empty frames, it breaks after exactly `k + 1` consumed frames iff `k` is
the first index at which the silence-counter break condition fires, and it
reaches the end of the trace iff the condition fires nowhere. -/
theorem recordLoop_vad (cfg : Configuration)
    (hm : cfg.recording_mode = "voice_activity_detection") :
    ∀ (ticks : List Tick) (rec : List Int) (s : Nat),
      (∀ t ∈ ticks, t.cancelTop = false ∧ t.cancelMid = false ∧ t.raise2 = false ∧
        t.frame ≠ []) →
      ((∀ n, ((recordLoop cfg ticks rec s).exitKind = LoopExit.broke ∧
          (recordLoop cfg ticks rec s).consumed = n) ↔
        (∃ k, n = k + 1 ∧
          vadBrk (ticks.map Tick.speech) (num_silence_frames cfg) s
            (decide (0 < rec.length)) k ∧
          ∀ j, j < k → ¬ vadBrk (ticks.map Tick.speech) (num_silence_frames cfg) s
            (decide (0 < rec.length)) j)) ∧
      ((recordLoop cfg ticks rec s).exitKind = LoopExit.streamEnd ↔
        ∀ k, ¬ vadBrk (ticks.map Tick.speech) (num_silence_frames cfg) s
          (decide (0 < rec.length)) k)) := by
  intro ticks
  induction ticks with
  | nil =>
    intro rec s _
    constructor
    · intro n
      constructor
      · rintro ⟨he, _⟩
        simp [recordLoop] at he
      · rintro ⟨k, _, hb, _⟩
        exact absurd hb (vadBrk_nil _ _ _ _)
    · constructor
      · intro _ k hb
        exact vadBrk_nil _ _ _ _ hb
      · intro _
        simp [recordLoop]
  | cons t ts ih =>
    intro rec s hcl
    obtain ⟨hct, hcm, hcr, hcf⟩ := hcl t (by simp)
    have hcl2 : ∀ u ∈ ts, u.cancelTop = false ∧ u.cancelMid = false ∧
        u.raise2 = false ∧ u.frame ≠ [] := fun u hu => hcl u (by simp [hu])
    have hmap : (t :: ts).map Tick.speech = t.speech :: ts.map Tick.speech := rfl
    by_cases hsp : t.speech = true
    · have hstep := modeStep_vad_speech cfg hm t hsp rec s
      have hloop := recordLoop_cons_of_step cfg t ts rec s (rec ++ t.frame) 0
        ⟨hct, hcm, hcr⟩ hstep
      have hrecne : decide (0 < (rec ++ t.frame).length) = true := by
        have : 0 < t.frame.length := List.length_pos.mpr hcf
        simp [List.length_append]
        omega
      have IH := ih (rec ++ t.frame) 0 hcl2
      rw [hrecne] at IH
      rw [hmap, hsp, hloop]
      have h0 : ¬ vadBrk (true :: ts.map Tick.speech) (num_silence_frames cfg) s
          (decide (0 < rec.length)) 0 := by
        rw [vadBrk_cons_zero]
        rintro ⟨hfalse, _⟩
        exact absurd hfalse (by decide)
      constructor
      · exact loop_shift _ _ _ _ h0
          (fun k => vadBrk_cons_succ_true (ts.map Tick.speech) _ s _ k) IH.1
      · exact IH.2.trans (all_shift _ _ h0
          (fun k => vadBrk_cons_succ_true (ts.map Tick.speech) _ s _ k)).symm
    · have hsp2 : t.speech = false := by
        cases hq : t.speech
        · rfl
        · exact absurd hq hsp
      have hs2eq : (if decide (0 < rec.length) = true then s + 1 else s) =
          (if 0 < rec.length then s + 1 else s) := by
        by_cases hrec : 0 < rec.length <;> simp [hrec]
      by_cases hb : num_silence_frames cfg ≤ (if 0 < rec.length then s + 1 else s)
      · have hstep : modeStep cfg t rec s =
            (rec, if 0 < rec.length then s + 1 else s, true) := by
          rw [modeStep_vad_silent cfg hm t hsp2 rec s]
          simp [hb]
        have hloop := recordLoop_cons_of_break cfg t ts rec s rec
          (if 0 < rec.length then s + 1 else s) ⟨hct, hcm, hcr⟩ hstep
        rw [hmap, hsp2, hloop]
        have h0 : vadBrk (false :: ts.map Tick.speech) (num_silence_frames cfg) s
            (decide (0 < rec.length)) 0 := by
          rw [vadBrk_cons_zero]
          refine ⟨rfl, ?_⟩
          unfold vadNext
          simpa [hs2eq] using hb
        constructor
        · intro n
          rw [first_zero _ h0 n]
          constructor
          · rintro ⟨_, hn⟩
            simpa using hn.symm
          · intro hn
            subst hn
            exact ⟨rfl, rfl⟩
        · constructor
          · intro hfalse
            simp at hfalse
          · intro hall
            exact absurd h0 (hall 0)
      · have hstep : modeStep cfg t rec s =
            (rec, if 0 < rec.length then s + 1 else s, false) := by
          rw [modeStep_vad_silent cfg hm t hsp2 rec s]
          simp [hb]
        have hloop := recordLoop_cons_of_step cfg t ts rec s rec
          (if 0 < rec.length then s + 1 else s) ⟨hct, hcm, hcr⟩ hstep
        have IH := ih rec (if 0 < rec.length then s + 1 else s) hcl2
        rw [hmap, hsp2, hloop]
        have h0 : ¬ vadBrk (false :: ts.map Tick.speech) (num_silence_frames cfg) s
            (decide (0 < rec.length)) 0 := by
          rw [vadBrk_cons_zero]
          rintro ⟨_, hle⟩
          unfold vadNext at hle
          rw [hs2eq] at hle
          exact hb hle
        have hsucc : ∀ k, vadBrk (false :: ts.map Tick.speech) (num_silence_frames cfg) s
            (decide (0 < rec.length)) (k + 1) ↔
            vadBrk (ts.map Tick.speech) (num_silence_frames cfg)
              (if 0 < rec.length then s + 1 else s) (decide (0 < rec.length)) k := by
          intro k
          rw [vadBrk_cons_succ_false, hs2eq]
        constructor
        · exact loop_shift _ _ _ _ h0 hsucc IH.1
        · exact IH.2.trans (all_shift _ _ h0 hsucc).symm

/-! The silence counter computed by the loop, characterised through the
position of the last speech frame. -/

theorem getD_take (bs : List Bool) (k m : Nat) (h : m < k) :
    (bs.take k).getD m false = bs.getD m false := by
  simp [List.getD_eq_getElem?_getD, List.getElem?_take_of_lt h]

theorem getD_true_eq_false (bs : List Bool) (k : Nat) (h : k < bs.length) :
    bs.getD k true = bs.getD k false := by
  simp [List.getD_eq_getElem?_getD, List.getElem?_eq_getElem h]

theorem getD_true_out (bs : List Bool) (k : Nat) (h : bs.length ≤ k) :
    bs.getD k true = true := by
  simp [List.getD_eq_getElem?_getD, List.getElem?_eq_none h]

theorem lastTrueIdx_lt :
    ∀ (bs : List Bool) (i : Nat), lastTrueIdx bs = some i → i < bs.length := by
  intro bs
  induction bs with
  | nil => intro i h; simp [lastTrueIdx] at h
  | cons b bs ih =>
    intro i h
    unfold lastTrueIdx at h
    cases hq : lastTrueIdx bs with
    | some j =>
      rw [hq] at h
      injection h with h2
      subst h2
      have := ih j hq
      simp only [List.length_cons]
      omega
    | none =>
      rw [hq] at h
      cases b with
      | false => simp at h
      | true =>
        simp at h
        subst h
        simp

theorem lastTrueIdx_none_all :
    ∀ (bs : List Bool), lastTrueIdx bs = none →
      ∀ m, m < bs.length → bs.getD m false = false := by
  intro bs
  induction bs with
  | nil => intro _ m hm; simp at hm
  | cons b bs ih =>
    intro h m hm
    unfold lastTrueIdx at h
    cases hq : lastTrueIdx bs with
    | some j =>
      rw [hq] at h
      simp at h
    | none =>
      rw [hq] at h
      cases b with
      | true => simp at h
      | false =>
        cases m with
        | zero => rfl
        | succ m2 =>
          simp only [List.getD_cons_succ]
          exact ih hq m2 (by simpa using hm)

theorem lastTrueIdx_spec_some :
    ∀ (bs : List Bool) (i : Nat), lastTrueIdx bs = some i →
      i < bs.length ∧ bs.getD i false = true ∧
        ∀ m, i < m → m < bs.length → bs.getD m false = false := by
  intro bs
  induction bs with
  | nil => intro i h; simp [lastTrueIdx] at h
  | cons b bs ih =>
    intro i h
    unfold lastTrueIdx at h
    cases hq : lastTrueIdx bs with
    | some j =>
      rw [hq] at h
      injection h with h2
      subst h2
      obtain ⟨hj1, hj2, hj3⟩ := ih j hq
      refine ⟨by simp only [List.length_cons]; omega, by simpa using hj2, ?_⟩
      intro m hm1 hm2
      cases m with
      | zero => omega
      | succ m2 =>
        simp only [List.getD_cons_succ]
        exact hj3 m2 (by omega) (by simpa using hm2)
    | none =>
      rw [hq] at h
      cases b with
      | false => simp at h
      | true =>
        simp at h
        subst h
        refine ⟨by simp, rfl, ?_⟩
        intro m hm1 hm2
        cases m with
        | zero => omega
        | succ m2 =>
          simp only [List.getD_cons_succ]
          exact lastTrueIdx_none_all bs hq m2 (by simpa using hm2)

theorem lastTrueIdx_eq_some_of :
    ∀ (bs : List Bool) (i : Nat), i < bs.length → bs.getD i false = true →
      (∀ m, i < m → m < bs.length → bs.getD m false = false) →
      lastTrueIdx bs = some i := by
  intro bs
  induction bs with
  | nil => intro i hi; simp at hi
  | cons b bs ih =>
    intro i hi hsp hall
    unfold lastTrueIdx
    cases i with
    | zero =>
      have hb : b = true := hsp
      have hnone : lastTrueIdx bs = none := by
        cases hq : lastTrueIdx bs with
        | none => rfl
        | some j =>
          obtain ⟨hj1, hj2, _⟩ := lastTrueIdx_spec_some bs j hq
          have hsil := hall (j + 1) (by omega)
            (by simp only [List.length_cons]; omega)
          simp only [List.getD_cons_succ] at hsil
          rw [hj2] at hsil
          exact absurd hsil (by decide)
      rw [hnone, hb]
      simp
    | succ i2 =>
      have hi2 : i2 < bs.length := by simpa using hi
      have hsp2 : bs.getD i2 false = true := hsp
      have hall2 : ∀ m, i2 < m → m < bs.length → bs.getD m false = false := by
        intro m hm1 hm2
        have := hall (m + 1) (by omega) (by simp only [List.length_cons]; omega)
        simpa using this
      rw [ih i2 hi2 hsp2 hall2]

theorem vadCount_eq :
    ∀ (bs : List Bool) (s : Nat) (hs : Bool),
      vadCount bs s hs =
        match lastTrueIdx bs with
        | some i => (bs.length - 1 - i, true)
        | none => (if hs = true then s + bs.length else s, hs) := by
  intro bs
  induction bs with
  | nil =>
    intro s hs
    cases hs <;> simp [vadCount, lastTrueIdx]
  | cons b bs ih =>
    intro s hs
    cases b with
    | true =>
      have h1 : vadCount (true :: bs) s hs = vadCount bs 0 true := rfl
      rw [h1, ih 0 true]
      cases hq : lastTrueIdx bs with
      | some j =>
        have hj := lastTrueIdx_lt bs j hq
        have h2 : lastTrueIdx (true :: bs) = some (j + 1) := by
          simp [lastTrueIdx, hq]
        rw [h2]
        simp only [List.length_cons]
        simp
        omega
      | none =>
        have h2 : lastTrueIdx (true :: bs) = some 0 := by
          simp [lastTrueIdx, hq]
        rw [h2]
        simp
    | false =>
      have h1 : vadCount (false :: bs) s hs =
          vadCount bs (if hs = true then s + 1 else s) hs := rfl
      rw [h1, ih]
      cases hq : lastTrueIdx bs with
      | some j =>
        have hj := lastTrueIdx_lt bs j hq
        have h2 : lastTrueIdx (false :: bs) = some (j + 1) := by
          simp [lastTrueIdx, hq]
        rw [h2]
        simp only [List.length_cons]
        simp
        omega
      | none =>
        have h2 : lastTrueIdx (false :: bs) = none := by
          simp [lastTrueIdx, hq]
        rw [h2]
        cases hs
        · simp
        · simp
          try omega

theorem specStop_brk (bs : List Bool) (k : Nat) (h : SpecStopAt bs k) :
    vadBrk bs 30 0 false k := by
  obtain ⟨h30, hk, hsp, hall⟩ := h
  have hlen : (bs.take k).length = k := by
    simp
    omega
  have hlast : lastTrueIdx (bs.take k) = some (k - 30) := by
    apply lastTrueIdx_eq_some_of
    · rw [hlen]
      omega
    · rw [getD_take bs k (k - 30) (by omega)]
      exact hsp
    · intro m hm1 hm2
      rw [hlen] at hm2
      rw [getD_take bs k m hm2]
      exact hall m (by omega) hm1
  refine ⟨?_, ?_⟩
  · rw [getD_true_eq_false bs k hk]
    exact hall k (le_refl k) (by omega)
  · rw [vadCount_eq, hlast]
    simp [vadNext, hlen]
    omega

theorem brk_specStop (bs : List Bool) (k : Nat) (h : vadBrk bs 30 0 false k) :
    ∃ j, j ≤ k ∧ SpecStopAt bs j := by
  obtain ⟨hk0, hcnt⟩ := h
  have hk : k < bs.length := by
    by_contra hge
    rw [getD_true_out bs k (by omega)] at hk0
    exact absurd hk0 (by decide)
  have hlen : (bs.take k).length = k := by
    simp
    omega
  rw [vadCount_eq] at hcnt
  cases hq : lastTrueIdx (bs.take k) with
  | none =>
    rw [hq] at hcnt
    simp [vadNext] at hcnt
  | some i =>
    rw [hq] at hcnt
    simp [vadNext, hlen] at hcnt
    obtain ⟨hi1, hi2, hi3⟩ := lastTrueIdx_spec_some _ i hq
    rw [hlen] at hi1
    rw [getD_take bs k i hi1] at hi2
    refine ⟨i + 30, by omega, by omega, by omega, ?_, ?_⟩
    · have he : i + 30 - 30 = i := by omega
      rw [he]
      exact hi2
    · intro m hm1 hm2
      have hm3 : i < m := by omega
      by_cases hmk : m < k
      · have := hi3 m hm3 (by rw [hlen]; exact hmk)
        rwa [getD_take bs k m hmk] at this
      · have hmk2 : m = k := by omega
        subst hmk2
        rw [getD_true_eq_false bs m hk] at hk0
        exact hk0

theorem firstBrk_iff_firstSpec (bs : List Bool) (k : Nat) :
    (vadBrk bs 30 0 false k ∧ ∀ j, j < k → ¬ vadBrk bs 30 0 false j) ↔
      FirstSpecStop bs k := by
  constructor
  · rintro ⟨hb, hmin⟩
    obtain ⟨j, hj, hs⟩ := brk_specStop bs k hb
    have hjk : j = k := by
      by_contra hne
      exact hmin j (by omega) (specStop_brk bs j hs)
    subst hjk
    exact ⟨hs, fun j2 hj2 hs2 => hmin j2 hj2 (specStop_brk bs j2 hs2)⟩
  · rintro ⟨hs, hmin⟩
    refine ⟨specStop_brk bs k hs, fun j hj hb => ?_⟩
    obtain ⟨j2, hj2, hs2⟩ := brk_specStop bs j hb
    exact hmin j2 (by omega) hs2

theorem allBrk_iff_allSpec (bs : List Bool) :
    (∀ k, ¬ vadBrk bs 30 0 false k) ↔ (∀ k, ¬ SpecStopAt bs k) := by
  constructor
  · intro h k hs
    exact h k (specStop_brk bs k hs)
  · intro h k hb
    obtain ⟨j, _, hs⟩ := brk_specStop bs k hb
    exact h j hs

/-- Claim C3: in `voice_activity_detection` mode with `silence_duration =
900` and 30 ms frames, the silence-frame threshold is exactly `900 / 30 =
30`; per frame, a speech frame is appended and resets the silence counter,
a non-speech frame leaves the recording unchanged and increments the counter
only when the recording is non-empty (breaking exactly when the counter
reaches the threshold); and over any clean trace with non-empty frames the
capture loop breaks after exactly `k + 1` frames iff `k` is the first index
at which thirty consecutive non-speech frames immediately follow a speech
frame — never earlier and never later — and never breaks when no such index
exists. -/
theorem claim_C3_vad_silence_threshold (cfg : Configuration) (ticks : List Tick)
    (hm : cfg.recording_mode = "voice_activity_detection")
    (hsd : cfg.silence_duration = 900)
    (hclean : ∀ t ∈ ticks, t.cancelTop = false ∧ t.cancelMid = false ∧
      t.raise2 = false ∧ t.frame ≠ []) :
    num_silence_frames cfg = 30 ∧
    (∀ (t : Tick) (rec : List Int) (s : Nat), t.speech = true →
      modeStep cfg t rec s = (rec ++ t.frame, 0, false)) ∧
    (∀ (t : Tick) (rec : List Int) (s : Nat), t.speech = false →
      modeStep cfg t rec s =
        (rec, if 0 < rec.length then s + 1 else s,
          decide (30 ≤ (if 0 < rec.length then s + 1 else s)))) ∧
    (∀ n, ((recordLoop cfg ticks [] 0).exitKind = LoopExit.broke ∧
        (recordLoop cfg ticks [] 0).consumed = n) ↔
      ∃ k, n = k + 1 ∧ FirstSpecStop (ticks.map Tick.speech) k) ∧
    ((recordLoop cfg ticks [] 0).exitKind = LoopExit.streamEnd ↔
      ∀ k, ¬ SpecStopAt (ticks.map Tick.speech) k) := by
  have hthr : num_silence_frames cfg = 30 := by
    unfold num_silence_frames
    rw [hsd]
  have hchar := recordLoop_vad cfg hm ticks [] 0 hclean
  rw [hthr] at hchar
  simp only [show decide (0 < ([] : List Int).length) = false from rfl] at hchar
  refine ⟨hthr, fun t rec s hsp => modeStep_vad_speech cfg hm t hsp rec s,
    fun t rec s hsp => ?_, ?_, ?_⟩
  · rw [modeStep_vad_silent cfg hm t hsp rec s, hthr]
  · intro n
    rw [hchar.1 n]
    exact exists_congr fun k => and_congr_right fun _ =>
      firstBrk_iff_firstSpec (ticks.map Tick.speech) k
  · rw [hchar.2]
    exact allBrk_iff_allSpec (ticks.map Tick.speech)

/-- Witness for claim C3: one speech frame and thirty silent frames make the
loop break after exactly 31 consumed frames, with threshold 30. -/
theorem claim_C3_vad_silence_threshold_witness :
    cfgVad.recording_mode = "voice_activity_detection" ∧
    cfgVad.silence_duration = 900 ∧
    num_silence_frames cfgVad = 30 ∧
    ((recordLoop cfgVad vadTicksW [] 0).exitKind = LoopExit.broke ∧
      (recordLoop cfgVad vadTicksW [] 0).consumed = 31) :=
  ⟨rfl, rfl,
    (claim_C3_vad_silence_threshold cfgVad vadTicksW rfl rfl (by decide)).1,
    ((claim_C3_vad_silence_threshold cfgVad vadTicksW rfl rfl (by decide)).2.2.2.1
        31).mpr ⟨30, rfl, by decide⟩⟩

end WhisperWriter
